import Mathlib

/-!
DC-Generator: the configuration assembly of `main.go`.

A shallow embedding of the part of `main` (src/main.go) that turns the values
collected by the forms into the `DevContainerFile` record that is serialised
to `.devcontainer/devcontainer.json`, together with the Go standard-library
functions it calls (`strings.TrimSpace`, `strings.SplitSeq`, `strconv.Atoi`,
`strconv.Itoa`, `json.Unmarshal`, the `omitempty` rule of `json.MarshalIndent`).

Go strings are modelled as lists of Unicode code points (valid UTF-8 text),
Go `int` as `Int` with the 64-bit range checks of `strconv` made explicit.
-/

namespace DCGenerator

/-- Go `string`: the sequence of code points of a valid UTF-8 text. -/
abbrev GoString := List Char

/-! ## strings / unicode -/

/-- Go `unicode.IsSpace`: the Latin-1 spaces `\t \n \v \f \r`, space, U+0085,
U+00A0, and the other code points with the White_Space property. -/
def isSpace (c : Char) : Bool :=
  let n := c.toNat
  n == 0x09 || n == 0x0A || n == 0x0B || n == 0x0C || n == 0x0D || n == 0x20 ||
  n == 0x85 || n == 0xA0 || n == 0x1680 || (0x2000 ≤ n && n ≤ 0x200A) ||
  n == 0x2028 || n == 0x2029 || n == 0x202F || n == 0x205F || n == 0x3000

/-- Go `strings.TrimSpace`: the text without its leading and trailing white space. -/
def TrimSpace (s : GoString) : GoString :=
  ((s.dropWhile isSpace).reverse.dropWhile isSpace).reverse

/-- Go `strings.SplitSeq s sep` for a one-character separator (the source only
calls it with `","`): all the pieces of `s` between occurrences of `sep`, in
order. The empty text yields the single empty piece. -/
def SplitSeq (sep : Char) : GoString → List GoString
  | [] => [[]]
  | c :: cs =>
    if c = sep then [] :: SplitSeq sep cs
    else
      match SplitSeq sep cs with
      | [] => [[c]]
      | p :: ps => (c :: p) :: ps

/-- Go `strings.Join`. -/
def Join : List GoString → GoString → GoString
  | [], _ => []
  | [a], _ => a
  | a :: b :: rest, sep => a ++ sep ++ Join (b :: rest) sep

/-! ## strconv -/

/-- The two error kinds of Go `strconv.NumError`. -/
inductive NumError where
  | ErrSyntax
  | ErrRange
  deriving DecidableEq, Repr

/-- Largest `uint64`. -/
def maxUint64 : Nat := 2 ^ 64 - 1

/-- The digit loop of Go `strconv.ParseUint(s, 10, 64)`: `n` is the value read
so far. A non-digit is a syntax error with value 0; leaving the `uint64` range
is a range error with value `maxUint64`, reported as soon as it happens. -/
def parseUintLoop : GoString → Nat → Nat × Option NumError
  | [], n => (n, none)
  | c :: cs, n =>
    if '0' ≤ c ∧ c ≤ '9' then
      if n ≥ maxUint64 / 10 + 1 then (maxUint64, some NumError.ErrRange)
      else
        let n1 := n * 10 + (c.toNat - 48)
        if n1 > maxUint64 then (maxUint64, some NumError.ErrRange)
        else parseUintLoop cs n1
    else (0, some NumError.ErrSyntax)

/-- Go `strconv.ParseUint(s, 10, 64)`. -/
def ParseUint (s : GoString) : Nat × Option NumError :=
  if s = [] then (0, some NumError.ErrSyntax) else parseUintLoop s 0

/-- Go `strconv.ParseInt(s, 10, 0)` on a 64-bit platform: optional sign, then
`ParseUint`, then the signed range check with cutoff `2^63`. -/
def ParseInt (s : GoString) : Int × Option NumError :=
  match s with
  | [] => (0, some NumError.ErrSyntax)
  | c :: cs =>
    let neg : Bool := c = '-'
    let body : GoString := if c = '+' ∨ c = '-' then cs else c :: cs
    match ParseUint body with
    | (_, some NumError.ErrSyntax) => (0, some NumError.ErrSyntax)
    | (un, _) =>
      let cutoff : Nat := 2 ^ 63
      if !neg && un ≥ cutoff then ((cutoff : Int) - 1, some NumError.ErrRange)
      else if neg && un > cutoff then (-(cutoff : Int), some NumError.ErrRange)
      else (if neg then -(un : Int) else (un : Int), none)

/-- Go `strconv.Atoi` (64-bit `int`): value and error, as `ParseInt(s, 10, 0)`. -/
def Atoi (s : GoString) : Int × Option NumError := ParseInt s

/-- The decimal digit loop of Go `strconv.formatBits`: digits are produced from
the least significant one and put in front of `acc`. -/
def formatBits : Nat → Nat → GoString → GoString
  | 0, _, acc => acc
  | fuel + 1, n, acc =>
    let acc1 := Char.ofNat (48 + n % 10) :: acc
    if n / 10 = 0 then acc1 else formatBits fuel (n / 10) acc1

/-- Go `strconv.Itoa`: decimal rendering, with a leading `-` for negatives. -/
def Itoa (i : Int) : GoString :=
  if i < 0 then '-' :: formatBits (i.natAbs + 1) i.natAbs []
  else formatBits (i.natAbs + 1) i.natAbs []

/-! ## The port list (src/main.go, lines 294-304) -/

/-- One iteration of the loop body of lines 297-302: trim the piece, skip it
when empty, append its value when `strconv.Atoi` reports no error. -/
def portStep (forwardPorts : List Int) (port : GoString) : List Int :=
  let port := TrimSpace port
  if port ≠ [] then
    match Atoi port with
    | (portNum, none) => forwardPorts ++ [portNum]
    | (_, some _) => forwardPorts
  else forwardPorts

/-- Lines 295-304 of `main`: the `ForwardPorts` slice after the port loop,
starting from the slice `forwardPorts` (nil in `main`). -/
def parsePorts (ports : GoString) (forwardPorts : List Int) : List Int :=
  if ports ≠ [] then (SplitSeq ',' ports).foldl portStep forwardPorts
  else forwardPorts

/-! ## encoding/json: decoding -/

/-- A JSON number as `json.Unmarshal` scans it: sign, integer digits, fraction
digits (empty when there is no fraction) and exponent (empty digits when there
is none). Go stores the `float64` nearest to this decimal; the model keeps the
decimal itself. -/
structure NumberLit where
  neg : Bool
  intDigits : GoString
  fracDigits : GoString
  expNeg : Bool
  expDigits : GoString
  deriving DecidableEq, Repr

/-- The values Go's `json.Unmarshal` stores in an `any`: nil, bool, float64,
string, `[]any` and `map[string]any` (a map as its key/value pairs, keys
distinct). -/
inductive JSONAny where
  | null
  | bool (b : Bool)
  | number (n : NumberLit)
  | string (s : GoString)
  | array (items : List JSONAny)
  | object (members : List (GoString × JSONAny))

instance : Inhabited JSONAny := ⟨JSONAny.null⟩

/-- Go map assignment `m[k] = v` on a map kept as key/value pairs. -/
def mapSet {α : Type} : List (GoString × α) → GoString → α → List (GoString × α)
  | [], k, v => [(k, v)]
  | (k1, v1) :: rest, k, v =>
    if k1 = k then (k, v) :: rest else (k1, v1) :: mapSet rest k v

/-- Lexical tokens of a JSON text. -/
inductive Token where
  | beginObject
  | endObject
  | beginArray
  | endArray
  | colon
  | comma
  | str (s : GoString)
  | num (n : NumberLit)
  | litTrue
  | litFalse
  | litNull

/-- Value of a hexadecimal digit, as in Go's `getu4`. -/
def hexVal (c : Char) : Option Nat :=
  if '0' ≤ c ∧ c ≤ '9' then some (c.toNat - 48)
  else if 'a' ≤ c ∧ c ≤ 'f' then some (c.toNat - 87)
  else if 'A' ≤ c ∧ c ≤ 'F' then some (c.toNat - 55)
  else none

/-- Go's `getu4` on the four characters after `\u`. -/
def getu4 (a b c d : Char) : Option Nat :=
  match hexVal a, hexVal b, hexVal c, hexVal d with
  | some x, some y, some z, some w => some (((x * 16 + y) * 16 + z) * 16 + w)
  | _, _, _, _ => none

/-- The low half of a surrogate pair at the head of `s`, when `s` starts with
an escape `\uXXXX` whose value is a low surrogate. -/
def lowSurrogate (s : GoString) : Option Nat :=
  match s with
  | b1 :: b2 :: g1 :: g2 :: g3 :: g4 :: _ =>
    if b1 = '\\' ∧ b2 = 'u' then
      match getu4 g1 g2 g3 g4 with
      | some r2 => if 0xDC00 ≤ r2 ∧ r2 < 0xE000 then some r2 else none
      | none => none
    else none
  | _ => none

/-- The body of a JSON string literal, read after its opening quote: the
decoded text (Go's `unquote`) and the input after the closing quote. Control
characters and unknown escapes are syntax errors; a surrogate escape that is
not half of a valid pair decodes to U+FFFD. `acc` is the decoded text so far,
reversed. Each step consumes at least one character, so fuel `s.length + 1`
never runs out. -/
def lexString : Nat → GoString → GoString → Option (GoString × GoString)
  | 0, _, _ => none
  | _ + 1, [], _ => none
  | fuel + 1, c :: rest, acc =>
    if c = '"' then some (acc.reverse, rest)
    else if c.toNat < 0x20 then none
    else if c = '\\' then
      match rest with
      | [] => none
      | e :: rest1 =>
        if e = '"' ∨ e = '\\' ∨ e = '/' then lexString fuel rest1 (e :: acc)
        else if e = 'b' then lexString fuel rest1 (Char.ofNat 8 :: acc)
        else if e = 'f' then lexString fuel rest1 (Char.ofNat 12 :: acc)
        else if e = 'n' then lexString fuel rest1 (Char.ofNat 10 :: acc)
        else if e = 'r' then lexString fuel rest1 (Char.ofNat 13 :: acc)
        else if e = 't' then lexString fuel rest1 (Char.ofNat 9 :: acc)
        else if e = 'u' then
          match rest1 with
          | h1 :: h2 :: h3 :: h4 :: rest2 =>
            match getu4 h1 h2 h3 h4 with
            | none => none
            | some rr =>
              if 0xD800 ≤ rr ∧ rr < 0xE000 then
                match lowSurrogate rest2 with
                | some r2 =>
                  if rr < 0xDC00 then
                    lexString fuel (rest2.drop 6)
                      (Char.ofNat ((rr - 0xD800) * 0x400 + (r2 - 0xDC00) + 0x10000) :: acc)
                  else lexString fuel rest2 (Char.ofNat 0xFFFD :: acc)
                | none => lexString fuel rest2 (Char.ofNat 0xFFFD :: acc)
              else lexString fuel rest2 (Char.ofNat rr :: acc)
          | _ => none
        else none
    else lexString fuel rest (c :: acc)

/-- Is `c` an ASCII decimal digit. -/
def isDigit (c : Char) : Bool := decide ('0' ≤ c ∧ c ≤ '9')

/-- The integer part of a JSON number: `0`, or a non-zero digit followed by
digits. -/
def lexInt (s : GoString) : Option (GoString × GoString) :=
  match s with
  | [] => none
  | c :: rest =>
    if c = '0' then some (['0'], rest)
    else if isDigit c then
      match rest.span isDigit with
      | (ds, rest1) => some (c :: ds, rest1)
    else none

/-- The optional fraction of a JSON number: `.` and at least one digit. -/
def lexFrac (s : GoString) : Option (GoString × GoString) :=
  match s with
  | c :: rest =>
    if c = '.' then
      match rest.span isDigit with
      | ([], _) => none
      | (ds, rest1) => some (ds, rest1)
    else some ([], s)
  | [] => some ([], s)

/-- The optional exponent of a JSON number: `e` or `E`, an optional sign and at
least one digit. -/
def lexExp (s : GoString) : Option (Bool × GoString × GoString) :=
  match s with
  | c :: rest =>
    if c = 'e' ∨ c = 'E' then
      let signed : Bool := match rest with
        | d :: _ => decide (d = '+' ∨ d = '-')
        | [] => false
      let expNeg : Bool := match rest with
        | d :: _ => decide (d = '-')
        | [] => false
      match (if signed then rest.drop 1 else rest).span isDigit with
      | ([], _) => none
      | (ds, rest1) => some (expNeg, ds, rest1)
    else some (false, [], s)
  | [] => some (false, [], s)

/-- A JSON number literal at the head of `s` (grammar of Go's scanner), and the
input after it. -/
def lexNumber (s : GoString) : Option (NumberLit × GoString) :=
  let neg : Bool := match s with
    | c :: _ => decide (c = '-')
    | [] => false
  match lexInt (if neg then s.drop 1 else s) with
  | none => none
  | some (ip, r1) =>
    match lexFrac r1 with
    | none => none
    | some (fp, r2) =>
      match lexExp r2 with
      | none => none
      | some (en, ed, r3) => some (⟨neg, ip, fp, en, ed⟩, r3)

/-- The tokens of a JSON text; `none` on a lexical error. Each step consumes at
least one character, so fuel `s.length + 1` never runs out. -/
def tokenize : Nat → GoString → Option (List Token)
  | 0, _ => none
  | _ + 1, [] => some []
  | fuel + 1, c :: rest =>
    let cons (t : Token) (s : GoString) : Option (List Token) :=
      match tokenize fuel s with
      | some ts => some (t :: ts)
      | none => none
    if c = ' ' ∨ c = '\t' ∨ c = '\r' ∨ c = '\n' then tokenize fuel rest
    else if c = '{' then cons Token.beginObject rest
    else if c = '}' then cons Token.endObject rest
    else if c = '[' then cons Token.beginArray rest
    else if c = ']' then cons Token.endArray rest
    else if c = ':' then cons Token.colon rest
    else if c = ',' then cons Token.comma rest
    else if c = '"' then
      match lexString (rest.length + 1) rest [] with
      | some (s, rest1) => cons (Token.str s) rest1
      | none => none
    else if c = 't' then
      if ['r', 'u', 'e'].isPrefixOf rest then cons Token.litTrue (rest.drop 3) else none
    else if c = 'f' then
      if ['a', 'l', 's', 'e'].isPrefixOf rest then cons Token.litFalse (rest.drop 4) else none
    else if c = 'n' then
      if ['u', 'l', 'l'].isPrefixOf rest then cons Token.litNull (rest.drop 3) else none
    else if c = '-' ∨ isDigit c then
      match lexNumber (c :: rest) with
      | some (n, rest1) => cons (Token.num n) rest1
      | none => none
    else none

/-- Value of a string of decimal digits. -/
def digitsVal (ds : GoString) : Nat :=
  ds.foldl (fun n c => n * 10 + (c.toNat - 48)) 0

/-- Does `strconv.ParseFloat(lit, 64)` report a range error: the decimal rounds
(to nearest, ties to even) to an infinity, i.e. its magnitude is at least
`2^1024 - 2^970`. -/
def float64Overflows (n : NumberLit) : Bool :=
  let m := digitsVal (n.intDigits ++ n.fracDigits)
  let e : Int := (if n.expNeg then -(digitsVal n.expDigits : Int) else (digitsVal n.expDigits : Int))
    - (n.fracDigits.length : Int)
  let limit : Nat := 2 ^ 1024 - 2 ^ 970
  if 0 ≤ e then decide (limit ≤ m * 10 ^ e.toNat) else decide (limit * 10 ^ (-e).toNat ≤ m)

/-- A container being decoded: an array with its items so far (latest first),
or an object with its members so far and the key awaiting its value. -/
inductive Frame where
  | arr (items : List JSONAny)
  | obj (members : List (GoString × JSONAny)) (key : Option GoString)

/-- What the decoder may read next. -/
inductive Expect where
  | value
  | valueOrEndArray
  | keyOrEndObject
  | key
  | colon
  | commaOrEnd
  | eof
  deriving DecidableEq

/-- State of the decoder: open containers (innermost first), what is expected
next, the finished top-level value, and whether a value did not fit the Go
type it is decoded into (Go keeps decoding and reports the type error at the
end). -/
structure DecodeState where
  stack : List Frame
  expect : Expect
  result : Option JSONAny
  typeError : Bool

/-- Go's `maxNestingDepth`. -/
def maxNestingDepth : Nat := 10000

/-- A finished value goes to the enclosing container, or is the result.
`memberOk` is the check that a member of the top-level object fits the map's
element type. -/
def deliver (memberOk : JSONAny → Bool) (st : DecodeState) (v : JSONAny) : DecodeState :=
  match st.stack with
  | [] => { st with result := some v, expect := Expect.eof }
  | Frame.arr items :: rest =>
    { st with stack := Frame.arr (v :: items) :: rest, expect := Expect.commaOrEnd }
  | Frame.obj ms (some k) :: rest =>
    { st with stack := Frame.obj (mapSet ms k v) none :: rest, expect := Expect.commaOrEnd,
              typeError := st.typeError || (rest.isEmpty && !memberOk v) }
  | Frame.obj ms none :: rest =>
    { st with stack := Frame.obj ms none :: rest, expect := Expect.commaOrEnd }

/-- Open a container, within the nesting limit. -/
def pushFrame (st : DecodeState) (f : Frame) (e : Expect) : Option DecodeState :=
  if st.stack.length + 1 ≤ maxNestingDepth then
    some { st with stack := f :: st.stack, expect := e }
  else none

/-- The decoder at the start of a value. -/
def beginValue (memberOk : JSONAny → Bool) (st : DecodeState) (t : Token) : Option DecodeState :=
  match t with
  | Token.beginObject => pushFrame st (Frame.obj [] none) Expect.keyOrEndObject
  | Token.beginArray => pushFrame st (Frame.arr []) Expect.valueOrEndArray
  | Token.str s => some (deliver memberOk st (JSONAny.string s))
  | Token.num n =>
    some (deliver memberOk { st with typeError := st.typeError || float64Overflows n }
      (JSONAny.number n))
  | Token.litTrue => some (deliver memberOk st (JSONAny.bool true))
  | Token.litFalse => some (deliver memberOk st (JSONAny.bool false))
  | Token.litNull => some (deliver memberOk st JSONAny.null)
  | _ => none

/-- Close the innermost container and deliver it. -/
def endContainer (memberOk : JSONAny → Bool) (st : DecodeState) : Option DecodeState :=
  match st.stack with
  | Frame.arr items :: rest =>
    some (deliver memberOk { st with stack := rest } (JSONAny.array items.reverse))
  | Frame.obj ms _ :: rest =>
    some (deliver memberOk { st with stack := rest } (JSONAny.object ms))
  | [] => none

/-- One token of input; `none` is a syntax error. -/
def decodeStep (memberOk : JSONAny → Bool) (st : DecodeState) (t : Token) : Option DecodeState :=
  match st.expect with
  | Expect.value => beginValue memberOk st t
  | Expect.valueOrEndArray =>
    match t with
    | Token.endArray => endContainer memberOk st
    | _ => beginValue memberOk st t
  | Expect.keyOrEndObject =>
    match t, st.stack with
    | Token.str k, Frame.obj ms _ :: rest =>
      some { st with stack := Frame.obj ms (some k) :: rest, expect := Expect.colon }
    | Token.endObject, _ => endContainer memberOk st
    | _, _ => none
  | Expect.key =>
    match t, st.stack with
    | Token.str k, Frame.obj ms _ :: rest =>
      some { st with stack := Frame.obj ms (some k) :: rest, expect := Expect.colon }
    | _, _ => none
  | Expect.colon =>
    match t with
    | Token.colon => some { st with expect := Expect.value }
    | _ => none
  | Expect.commaOrEnd =>
    match st.stack, t with
    | Frame.arr _ :: _, Token.comma => some { st with expect := Expect.value }
    | Frame.arr _ :: _, Token.endArray => endContainer memberOk st
    | Frame.obj _ _ :: _, Token.comma => some { st with expect := Expect.key }
    | Frame.obj _ _ :: _, Token.endObject => endContainer memberOk st
    | _, _ => none
  | Expect.eof => none

/-- Run the decoder over the tokens. -/
def decodeTokens (memberOk : JSONAny → Bool) : List Token → DecodeState → Option DecodeState
  | [], st => some st
  | t :: ts, st =>
    match decodeStep memberOk st t with
    | some st1 => decodeTokens memberOk ts st1
    | none => none

/-- The errors of `json.Unmarshal`. -/
inductive DecodeError where
  | SyntaxError
  | UnmarshalTypeError
  deriving DecidableEq, Repr

/-- Decode a whole JSON text into an `any` value: a syntax error when the text
is not exactly one JSON value, else a type error when some value did not fit,
else the value. -/
def decodeAny (memberOk : JSONAny → Bool) (text : GoString) : Except DecodeError JSONAny :=
  match tokenize (text.length + 1) text with
  | none => Except.error DecodeError.SyntaxError
  | some toks =>
    match decodeTokens memberOk toks ⟨[], Expect.value, none, false⟩ with
    | some ⟨_, Expect.eof, some v, typeError⟩ =>
      if typeError then Except.error DecodeError.UnmarshalTypeError else Except.ok v
    | _ => Except.error DecodeError.SyntaxError

/-- A Go `map[string]any` variable: `none` is the nil map. -/
abbrev SettingsMap := Option (List (GoString × JSONAny))

/-- A Go `map[string]map[string]any` variable: `none` is the nil map. -/
abbrev FeaturesMap := Option (List (GoString × SettingsMap))

/-- Call `json.Unmarshal([]byte(text), &m)` with `m` a nil `map[string]any`
(lines 313-314): the error, or the map left in `m`. JSON `null` leaves the nil
map without error; a top-level value that is not an object is a type error. -/
def unmarshalSettings (text : GoString) : Except DecodeError SettingsMap :=
  match decodeAny (fun _ => true) text with
  | Except.error e => Except.error e
  | Except.ok (JSONAny.object ms) => Except.ok (some ms)
  | Except.ok JSONAny.null => Except.ok none
  | Except.ok _ => Except.error DecodeError.UnmarshalTypeError

/-- Does a JSON value fit the Go type `map[string]any`. -/
def fitsMap : JSONAny → Bool
  | JSONAny.object _ => true
  | JSONAny.null => true
  | _ => false

/-- The `map[string]any` a fitting JSON value decodes to. -/
def toInnerMap : JSONAny → SettingsMap
  | JSONAny.object ms => some ms
  | _ => none

/-- Call `json.Unmarshal([]byte(text), &m)` with `m` a nil
`map[string]map[string]any` (lines 321-322): every member of the top-level
object must itself be an object or `null`. -/
def unmarshalFeatures (text : GoString) : Except DecodeError FeaturesMap :=
  match decodeAny fitsMap text with
  | Except.error e => Except.error e
  | Except.ok (JSONAny.object ms) => Except.ok (some (ms.map (fun kv => (kv.1, toInnerMap kv.2))))
  | Except.ok JSONAny.null => Except.ok none
  | Except.ok _ => Except.error DecodeError.UnmarshalTypeError

/-! ## The data of src/main.go -/

/-- Source `DevContainerImage` (lines 16-23): a predefined image configuration. -/
structure DevContainerImage where
  Name : GoString
  Image : GoString
  DefaultPort : GoString
  Settings : GoString
  PostCommand : GoString
  Features : GoString
  deriving DecidableEq

/-- Source `DevContainerFile` (lines 26-33). `ForwardPorts` is a slice (the nil
slice is the empty list), the two maps may be nil. -/
structure DevContainerFile where
  Name : GoString
  Image : GoString
  ForwardPorts : List Int
  PostCreateCommand : GoString
  Settings : SettingsMap
  Features : FeaturesMap

/-- Source `predefinedImages` (lines 37-102). -/
def predefinedImages : List DevContainerImage :=
  [ { Name := "Bun (Latest)".toList,
      Image := "oven/bun:latest".toList,
      DefaultPort := "3000".toList,
      Settings := "\x7b\"terminal.integrated.shell.linux\": \"/bin/bash\"\x7d".toList,
      PostCommand := "bun install".toList,
      Features := "\x7b\"ghcr.io/devcontainers/features/git:1\": \x7b\x7d, \"ghcr.io/devcontainers/features/common-utils:2\": \x7b\x7d\x7d".toList },
    { Name := "Node.js (Latest)".toList,
      Image := "mcr.microsoft.com/devcontainers/javascript-node:latest".toList,
      DefaultPort := "3000".toList,
      Settings := "\x7b\"terminal.integrated.shell.linux\": \"/bin/bash\"\x7d".toList,
      PostCommand := "npm install".toList,
      Features := "\x7b\"ghcr.io/devcontainers/features/git:1\": \x7b\x7d, \"ghcr.io/devcontainers/features/common-utils:2\": \x7b\x7d\x7d".toList },
    { Name := "PHP 8.2 (Composer + Symfony)".toList,
      Image := "mcr.microsoft.com/devcontainers/php:8.2".toList,
      DefaultPort := "8000".toList,
      Settings := "\x7b\"php.validate.executablePath\": \"/usr/local/bin/php\"\x7d".toList,
      PostCommand := "composer install && symfony check:requirements".toList,
      Features := "\x7b\"ghcr.io/devcontainers/features/composer:2\": \x7b\x7d, \"ghcr.io/devcontainers/features/node:1\": \x7b\"version\": \"20\"\x7d, \"ghcr.io/devcontainers/features/git:1\": \x7b\x7d\x7d".toList },
    { Name := "Go (Alpine)".toList,
      Image := "golang:alpine".toList,
      DefaultPort := "8080".toList,
      Settings := "\x7b\"go.goroot\": \"/usr/local/go\", \"go.gopath\": \"/go\"\x7d".toList,
      PostCommand := "go mod download".toList,
      Features := "\x7b\"ghcr.io/devcontainers/features/git:1\": \x7b\x7d\x7d".toList },
    { Name := "Rust (Latest)".toList,
      Image := "mcr.microsoft.com/devcontainers/rust:latest".toList,
      DefaultPort := "8000".toList,
      Settings := "\x7b\"rust-analyzer.server.path\": \"/usr/local/bin/rust-analyzer\"\x7d".toList,
      PostCommand := "cargo build".toList,
      Features := "\x7b\"ghcr.io/devcontainers/features/git:1\": \x7b\x7d, \"ghcr.io/devcontainers/features/common-utils:2\": \x7b\x7d\x7d".toList },
    { Name := "Python 3.12".toList,
      Image := "mcr.microsoft.com/devcontainers/python:latest".toList,
      DefaultPort := "8000".toList,
      Settings := "\x7b\"python.defaultInterpreterPath\": \"/usr/local/bin/python\"\x7d".toList,
      PostCommand := "pip install -r requirements.txt".toList,
      Features := "\x7b\"ghcr.io/devcontainers/features/git:1\": \x7b\x7d, \"ghcr.io/devcontainers/features/common-utils:2\": \x7b\x7d\x7d".toList },
    { Name := ".NET 8".toList,
      Image := "mcr.microsoft.com/devcontainers/dotnet:8.0".toList,
      DefaultPort := "5000".toList,
      Settings := "\x7b\"dotnet.server.useOmnisharp\": false, \"dotnet.defaultSolution\": \"**/*.sln\"\x7d".toList,
      PostCommand := "dotnet restore".toList,
      Features := "\x7b\"ghcr.io/devcontainers/features/dotnet:2\": \x7b\x7d, \"ghcr.io/devcontainers/features/git:1\": \x7b\x7d, \"ghcr.io/devcontainers/features/common-utils:2\": \x7b\x7d\x7d".toList },
    { Name := "Custom Image".toList,
      Image := [],
      DefaultPort := [],
      Settings := [],
      PostCommand := [],
      Features := [] } ]

/-! ## The stages of `main` -/

/-- The four overridable fields as raw text: the variables `ports`,
`postCommand`, `settings` and `features` of `main` (lines 135-138). -/
structure RawFields where
  ports : GoString
  postCommand : GoString
  settings : GoString
  features : GoString
  deriving DecidableEq

/-- The variables bound by the first form (lines 150-188). -/
structure Step1Values where
  name : GoString
  selectedImg : GoString
  customImage : GoString
  deriving DecidableEq

/-- The `Validate` function of the project name input (lines 157-162): does it
accept `str`. -/
def validateName (str : GoString) : Bool :=
  !(decide (TrimSpace str = []))

/-- The `Validate` function of the custom image input (lines 178-183). -/
def validateCustomImage (selectedImg str : GoString) : Bool :=
  !(decide (selectedImg = Itoa ((predefinedImages.length : Int) - 1)) && decide (TrimSpace str = []))

/-- Result of lines 196-209: the selected catalog entry, `finalImage`, and the
four fields as they are handed to the second form. -/
structure Selection where
  selectedImage : DevContainerImage
  finalImage : GoString
  seeded : RawFields
  deriving DecidableEq

/-- Lines 196-209 of `main`: the index is `strconv.Atoi(selectedImg)` with its
error ignored; indexing outside the catalog panics (`none`). The custom entry
is recognised by its name and leaves the four fields at their zero value. -/
def selectImage (selectedImg customImage : GoString) : Option Selection :=
  let selectedIndex := (Atoi selectedImg).1
  if selectedIndex < 0 then none
  else
    match predefinedImages.get? selectedIndex.toNat with
    | none => none
    | some selectedImage =>
      if selectedImage.Name = "Custom Image".toList then
        some ⟨selectedImage, customImage, ⟨[], [], [], []⟩⟩
      else
        some ⟨selectedImage, selectedImage.Image,
          ⟨selectedImage.DefaultPort, selectedImage.PostCommand,
           selectedImage.Settings, selectedImage.Features⟩⟩

/-- Lines 288-325 of `main`: the `devContainer` value built from the name, the
final image and the four raw fields as they are after the second form. -/
def buildDevContainer (name finalImage : GoString) (f : RawFields) : DevContainerFile :=
  let d0 : DevContainerFile :=
    { Name := name, Image := finalImage, ForwardPorts := [], PostCreateCommand := [],
      Settings := none, Features := none }
  let d1 : DevContainerFile := { d0 with ForwardPorts := parsePorts f.ports d0.ForwardPorts }
  let d2 : DevContainerFile :=
    if f.postCommand ≠ [] then { d1 with PostCreateCommand := f.postCommand } else d1
  let d3 : DevContainerFile :=
    if f.settings ≠ [] then
      match unmarshalSettings f.settings with
      | Except.ok settingsMap => { d2 with Settings := settingsMap }
      | Except.error _ => d2
    else d2
  if f.features ≠ [] then
    match unmarshalFeatures f.features with
    | Except.ok featuresMap => { d3 with Features := featuresMap }
    | Except.error _ => d3
  else d3

/-! ## encoding/json: the members `json.MarshalIndent` emits -/

/-- Value of a member of the serialised document. -/
inductive FieldValue where
  | text (s : GoString)
  | ints (xs : List Int)
  | settings (m : List (GoString × JSONAny))
  | features (m : List (GoString × SettingsMap))

/-- The members of the JSON object `json.MarshalIndent(devContainer, "", "  ")`
writes when it returns no error (see `marshalIndentError`), in struct order, following the tags of `DevContainerFile` (lines
27-32): `name` and `image` always, the four `omitempty` fields only when the
slice, string or map has length greater than zero. The rendering as indented
text is not modelled, and the members of a map are kept in the order of the
model (Go writes them sorted by key). -/
def MarshalIndent (d : DevContainerFile) : List (GoString × FieldValue) :=
  [("name".toList, FieldValue.text d.Name), ("image".toList, FieldValue.text d.Image)]
  ++ (if d.ForwardPorts.length = 0 then []
      else [("forwardPorts".toList, FieldValue.ints d.ForwardPorts)])
  ++ (if d.PostCreateCommand.length = 0 then []
      else [("postCreateCommand".toList, FieldValue.text d.PostCreateCommand)])
  ++ (match d.Settings with
      | some (kv :: m) => [("settings".toList, FieldValue.settings (kv :: m))]
      | _ => [])
  ++ (match d.Features with
      | some (kv :: m) => [("features".toList, FieldValue.features (kv :: m))]
      | _ => [])

/-- Is a Go map non-nil with at least one key (`len(m) > 0`). -/
def nonEmptyMap {α : Type} : Option (List α) → Bool
  | some (_ :: _) => true
  | _ => false

/-- The keys of the serialised document. -/
def outputKeys (d : DevContainerFile) : List GoString :=
  (MarshalIndent d).map Prod.fst

/-- Does the serialised document have the key `k`. -/
def hasKey (d : DevContainerFile) (k : String) : Bool :=
  decide (k.toList ∈ outputKeys d)

/-- Does the JSON text of the value open more than `n` nested arrays and
objects (an empty array or object opens one). -/
def nestsDeeperThan : Nat → JSONAny → Bool
  | _, JSONAny.null => false
  | _, JSONAny.bool _ => false
  | _, JSONAny.number _ => false
  | _, JSONAny.string _ => false
  | 0, JSONAny.array _ => true
  | 0, JSONAny.object _ => true
  | n + 1, JSONAny.array items => items.any (nestsDeeperThan n)
  | n + 1, JSONAny.object members => members.any (fun kv => nestsDeeperThan n kv.2)

/-- The JSON value a `map[string]any` is written as: `null` for the nil map. -/
def innerMapValue : SettingsMap → JSONAny
  | some m => JSONAny.object m
  | none => JSONAny.null

/-- Does the JSON text of a member value of the document open more than `n`
nested arrays and objects. -/
def FieldValue.nestsDeeperThan (n : Nat) : FieldValue → Bool
  | FieldValue.text _ => false
  | FieldValue.ints _ => decide (n = 0)
  | FieldValue.settings m => DCGenerator.nestsDeeperThan n (JSONAny.object m)
  | FieldValue.features m =>
    DCGenerator.nestsDeeperThan n (JSONAny.object (m.map (fun kv => (kv.1, innerMapValue kv.2))))

/-- The error return of `json.MarshalIndent(devContainer, "", "  ")` (line
334). Encoding the values `main` builds (strings, ints, maps decoded from
JSON) cannot fail, but the indenting pass scans the encoded text with the
nesting limit `maxNestingDepth`: a document that nests deeper, the top-level
object included, is rejected with `exceeded max depth`. -/
def marshalIndentError (d : DevContainerFile) : Option GoString :=
  if (MarshalIndent d).any (fun kv => kv.2.nestsDeeperThan (maxNestingDepth - 1)) then
    some "exceeded max depth".toList
  else none

/-- The array nested `n + 1` levels deep: `[]` inside `n` arrays. -/
def nestedArrays : Nat → JSONAny
  | 0 => JSONAny.array []
  | n + 1 => JSONAny.array [nestedArrays n]

/-! ## The run of `main` -/

/-- What `main` receives from outside: the working directory, the values the
three forms leave in the bound variables (or the error `Run` returns), and the
errors of the two file-system calls (`none` is success). The first form gets
the default project name, the second the seeded fields. -/
structure Env where
  getwd : Except GoString GoString
  step1Form : GoString → Except GoString Step1Values
  step2Form : RawFields → Except GoString RawFields
  confirmForm : Except GoString Bool
  mkdirAll : Option GoString
  writeFile : Option GoString

/-- The texts `main` prints without the error style. -/
inductive Message where
  | banner
  | configureHeader
  | defaultsHint
  | summary (name finalImage : GoString) (f : RawFields)
  | cancelled
  | success (filePath : GoString)

/-- The observable actions of `main`, in order. -/
inductive Event where
  | print (m : Message)
  | printError (text : GoString)
  | mkdirAll (path : GoString) (perm : Nat)
  | marshalIndent (d : DevContainerFile)
  | writeFile (path : GoString) (data : List (GoString × FieldValue)) (perm : Nat)

/-- The `return` (or panic, or fall off the end) at which `main` stops. -/
inductive Outcome where
  | getwdFailed
  | step1Failed
  | indexPanic
  | step2Failed
  | confirmFailed
  | cancelled
  | mkdirFailed
  | marshalFailed
  | writeFailed
  | completed
  deriving DecidableEq, Repr

/-- A run of `main`: its actions, the `devContainer` value when lines 288-325
were executed, and where it stopped. -/
structure Run where
  events : List Event
  document : Option DevContainerFile
  outcome : Outcome

/-- Go `filepath.Base` on Unix: the last element of the path, trailing slashes
removed; `.` for the empty path and `/` for a path of slashes only. -/
def filepathBase (path : GoString) : GoString :=
  if path = [] then ['.']
  else
    let stripped := (path.reverse.dropWhile (fun c => c = '/')).reverse
    let last := (stripped.reverse.takeWhile (fun c => c ≠ '/')).reverse
    if last = [] then ['/'] else last

/-- Lines 327-352 of `main`: create the directory, serialise, write the file;
each of the three steps can fail and end the run with an error report. -/
def persist (env : Env) (events : List Event) (devContainer : DevContainerFile) : Run :=
  let ev1 := events ++ [Event.mkdirAll ".devcontainer".toList 0o755]
  match env.mkdirAll with
  | some err =>
    ⟨ev1 ++ [Event.printError ("Error creating .devcontainer directory: ".toList ++ err)],
      some devContainer, Outcome.mkdirFailed⟩
  | none =>
    let ev2 := ev1 ++ [Event.marshalIndent devContainer]
    match marshalIndentError devContainer with
    | some err =>
      ⟨ev2 ++ [Event.printError ("Error marshaling JSON: ".toList ++ err)],
        some devContainer, Outcome.marshalFailed⟩
    | none =>
      let jsonData := MarshalIndent devContainer
      let filePath := ".devcontainer/devcontainer.json".toList
      let ev3 := ev2 ++ [Event.writeFile filePath jsonData 0o644]
      match env.writeFile with
      | some err =>
        ⟨ev3 ++ [Event.printError ("Error writing file: ".toList ++ err)],
          some devContainer, Outcome.writeFailed⟩
      | none =>
        ⟨ev3 ++ [Event.print (Message.success filePath)], some devContainer, Outcome.completed⟩

/-- Source `main` (lines 118-353). -/
def main (env : Env) : Run :=
  let ev0 := [Event.print Message.banner]
  match env.getwd with
  | Except.error err =>
    ⟨ev0 ++ [Event.printError ("Error getting current directory: ".toList ++ err)],
      none, Outcome.getwdFailed⟩
  | Except.ok currentDir =>
    let defaultName := filepathBase currentDir
    match env.step1Form defaultName with
    | Except.error err =>
      ⟨ev0 ++ [Event.printError ("Error: ".toList ++ err)], none, Outcome.step1Failed⟩
    | Except.ok v1 =>
      match selectImage v1.selectedImg v1.customImage with
      | none => ⟨ev0, none, Outcome.indexPanic⟩
      | some sel =>
        let ev1 := ev0 ++ [Event.print Message.configureHeader]
          ++ (if sel.selectedImage.Name ≠ "Custom Image".toList
              then [Event.print Message.defaultsHint] else [])
        match env.step2Form sel.seeded with
        | Except.error err =>
          ⟨ev1 ++ [Event.printError ("Error: ".toList ++ err)], none, Outcome.step2Failed⟩
        | Except.ok f =>
          let ev2 := ev1 ++ [Event.print (Message.summary v1.name sel.finalImage f)]
          match env.confirmForm with
          | Except.error err =>
            ⟨ev2 ++ [Event.printError ("Error: ".toList ++ err)], none, Outcome.confirmFailed⟩
          | Except.ok confirm =>
            if !confirm then
              ⟨ev2 ++ [Event.print Message.cancelled], none, Outcome.cancelled⟩
            else
              persist env ev2 (buildDevContainer v1.name sel.finalImage f)

/-! ## Reference definitions taken from the specification -/

/-- The value of a part that `strconv.Atoi` accepts. -/
def acceptedPort (p : GoString) : Option Int :=
  match Atoi p with
  | (n, none) => some n
  | (_, some _) => none

/-- The port list as the specification words it: split the text on commas,
trim each part, discard the parts that are empty, keep the integer value of
every remaining part that parses. -/
def portsSpec (text : GoString) : List Int :=
  (((SplitSeq ',' text).map TrimSpace).filter (fun p => decide (p ≠ []))).filterMap acceptedPort

/-- The ten decimal digits. -/
def digitChars : List Char := ['0', '1', '2', '3', '4', '5', '6', '7', '8', '9']

/-! ## Sample sessions -/

/-- A session in `/home/dev/myapp` whose first form returns `v1`, whose second
form returns the seeded fields changed by `edit`, whose confirmation is
`confirm`, and whose file-system calls succeed. -/
def sampleEnv (v1 : Step1Values) (edit : RawFields → RawFields) (confirm : Bool) : Env :=
  { getwd := Except.ok "/home/dev/myapp".toList,
    step1Form := fun _ => Except.ok v1,
    step2Form := fun s => Except.ok (edit s),
    confirmForm := Except.ok confirm,
    mkdirAll := none,
    writeFile := none }

/-- Is the event one of the persistence steps of lines 327-346. -/
def Event.isPersistence : Event → Bool
  | Event.mkdirAll _ _ => true
  | Event.marshalIndent _ => true
  | Event.writeFile _ _ _ => true
  | _ => false

/-- Is the event an error report. -/
def Event.isError : Event → Bool
  | Event.printError _ => true
  | _ => false

/-- No call before the confirmation failed: the working directory was read,
the first form returned, the selection indexed the catalog and the second
form returned. -/
def formsSucceeded (env : Env) : Prop :=
  ∃ cwd v1 sel f, env.getwd = Except.ok cwd
    ∧ env.step1Form (filepathBase cwd) = Except.ok v1
    ∧ selectImage v1.selectedImg v1.customImage = some sel
    ∧ env.step2Form sel.seeded = Except.ok f

/-! ## Lemmas on the string functions -/

theorem SplitSeq_ne_nil (sep : Char) (s : GoString) : SplitSeq sep s ≠ [] := by
  induction s with
  | nil => simp [SplitSeq]
  | cons c cs ih =>
    unfold SplitSeq
    split_ifs
    · simp
    · cases h : SplitSeq sep cs with
      | nil => simp
      | cons p ps => simp

theorem SplitSeq_of_not_mem (sep : Char) (a : GoString) (h : sep ∉ a) :
    SplitSeq sep a = [a] := by
  induction a with
  | nil => simp [SplitSeq]
  | cons c cs ih =>
    have hc : c ≠ sep := fun e => h (by simp [e])
    have hcs : sep ∉ cs := fun e => h (by simp [e])
    simp [SplitSeq, hc, ih hcs]

theorem SplitSeq_append_sep (sep : Char) (a rest : GoString) (h : sep ∉ a) :
    SplitSeq sep (a ++ sep :: rest) = a :: SplitSeq sep rest := by
  induction a with
  | nil => simp [SplitSeq]
  | cons c cs ih =>
    have hc : c ≠ sep := fun e => h (by simp [e])
    have hcs : sep ∉ cs := fun e => h (by simp [e])
    simp [SplitSeq, hc, ih hcs]

theorem Atoi_nil : Atoi [] = (0, some NumError.ErrSyntax) := rfl

theorem acceptedPort_nil : acceptedPort [] = none := rfl

theorem acceptedPort_eq_some (p : GoString) (n : Int) :
    acceptedPort p = some n ↔ Atoi p = (n, none) := by
  unfold acceptedPort
  rcases h : Atoi p with ⟨v, e⟩
  cases e <;> simp

theorem acceptedPort_isSome (p : GoString) :
    (acceptedPort p).isSome = true ↔ (Atoi p).2 = none := by
  unfold acceptedPort
  rcases h : Atoi p with ⟨v, e⟩
  cases e <;> simp

/-- One loop iteration appends the accepted value of the trimmed part. -/
theorem portStep_eq (acc : List Int) (p : GoString) :
    portStep acc p = acc ++ (acceptedPort (TrimSpace p)).toList := by
  unfold portStep
  by_cases h : TrimSpace p = []
  · simp [h, acceptedPort_nil]
  · simp only [ne_eq, h, not_false_eq_true, if_true]
    unfold acceptedPort
    rcases h2 : Atoi (TrimSpace p) with ⟨v, e⟩
    cases e <;> simp

/-- The port loop over a list of parts, in closed form. -/
theorem foldl_portStep (parts : List GoString) (acc : List Int) :
    parts.foldl portStep acc
      = acc ++ ((parts.map TrimSpace).filter (fun p => decide (p ≠ []))).filterMap acceptedPort := by
  induction parts generalizing acc with
  | nil => simp
  | cons p ps ih =>
    simp only [List.foldl_cons, ih, portStep_eq, List.map_cons]
    by_cases h : TrimSpace p = []
    · simp [h, acceptedPort_nil]
    · simp only [List.filter_cons, ne_eq, h, not_false_eq_true, decide_True, if_true,
        List.filterMap_cons]
      cases h2 : acceptedPort (TrimSpace p) <;> simp

/-- The port parser of `main` computes the reference port list. -/
theorem parsePorts_eq_portsSpec (ports : GoString) :
    parsePorts ports [] = portsSpec ports := by
  unfold parsePorts portsSpec
  by_cases h : ports = []
  · subst h
    simp [SplitSeq, TrimSpace]
  · simp [h, foldl_portStep]

/-! ## Lemmas on the document builder -/

theorem buildDevContainer_Name (name finalImage : GoString) (f : RawFields) :
    (buildDevContainer name finalImage f).Name = name := by
  unfold buildDevContainer
  dsimp only
  repeat' split
  all_goals rfl

theorem buildDevContainer_Image (name finalImage : GoString) (f : RawFields) :
    (buildDevContainer name finalImage f).Image = finalImage := by
  unfold buildDevContainer
  dsimp only
  repeat' split
  all_goals rfl

theorem buildDevContainer_ForwardPorts (name finalImage : GoString) (f : RawFields) :
    (buildDevContainer name finalImage f).ForwardPorts = parsePorts f.ports [] := by
  unfold buildDevContainer
  dsimp only
  repeat' split
  all_goals rfl

theorem buildDevContainer_PostCreateCommand (name finalImage : GoString) (f : RawFields) :
    (buildDevContainer name finalImage f).PostCreateCommand = f.postCommand := by
  unfold buildDevContainer
  dsimp only
  by_cases h : f.postCommand = []
  · simp only [h, ne_eq, not_true_eq_false, if_false]
    repeat' split
    all_goals rfl
  · simp only [h, ne_eq, not_false_eq_true, if_true]
    repeat' split
    all_goals rfl

/-- The keys of the serialised document, field by field. -/
theorem outputKeys_eq (d : DevContainerFile) :
    outputKeys d = ["name".toList, "image".toList]
      ++ (if d.ForwardPorts = [] then [] else ["forwardPorts".toList])
      ++ (if d.PostCreateCommand = [] then [] else ["postCreateCommand".toList])
      ++ (match d.Settings with
          | some (_ :: _) => ["settings".toList]
          | _ => [])
      ++ (match d.Features with
          | some (_ :: _) => ["features".toList]
          | _ => []) := by
  rcases d with ⟨n, i, fp, pc, st, ft⟩
  cases fp <;> cases pc <;> rcases st with _ | _ | _ <;> rcases ft with _ | _ | _ <;>
    simp [outputKeys, MarshalIndent]

theorem hasKey_forwardPorts (d : DevContainerFile) :
    hasKey d "forwardPorts" = true ↔ d.ForwardPorts ≠ [] := by
  rcases d with ⟨n, i, fp, pc, st, ft⟩
  simp only [hasKey, outputKeys_eq, decide_eq_true_eq]
  cases fp <;> cases pc <;> rcases st with _ | _ | _ <;> rcases ft with _ | _ | _ <;> simp

theorem hasKey_postCreateCommand (d : DevContainerFile) :
    hasKey d "postCreateCommand" = true ↔ d.PostCreateCommand ≠ [] := by
  rcases d with ⟨n, i, fp, pc, st, ft⟩
  simp only [hasKey, outputKeys_eq, decide_eq_true_eq]
  cases fp <;> cases pc <;> rcases st with _ | _ | _ <;> rcases ft with _ | _ | _ <;> simp

theorem hasKey_settings (d : DevContainerFile) :
    hasKey d "settings" = nonEmptyMap d.Settings := by
  rcases d with ⟨n, i, fp, pc, st, ft⟩
  simp only [hasKey, outputKeys_eq]
  cases fp <;> cases pc <;> rcases st with _ | _ | _ <;> rcases ft with _ | _ | _ <;>
    simp [nonEmptyMap]

theorem hasKey_features (d : DevContainerFile) :
    hasKey d "features" = nonEmptyMap d.Features := by
  rcases d with ⟨n, i, fp, pc, st, ft⟩
  simp only [hasKey, outputKeys_eq]
  cases fp <;> cases pc <;> rcases st with _ | _ | _ <;> rcases ft with _ | _ | _ <;>
    simp [nonEmptyMap]

/-! ## Lemmas on the run of `main` -/

theorem persist_document (env : Env) (events : List Event) (d : DevContainerFile) :
    (persist env events d).document = some d := by
  unfold persist
  dsimp only
  repeat' split
  all_goals rfl

/-- When no form fails and the user confirms, `main` builds the document from
the values of the forms and goes on to the persistence step. -/
theorem main_confirmed (env : Env) (cwd : GoString) (v1 : Step1Values) (sel : Selection)
    (f : RawFields) (h1 : env.getwd = Except.ok cwd)
    (h2 : env.step1Form (filepathBase cwd) = Except.ok v1)
    (h3 : selectImage v1.selectedImg v1.customImage = some sel)
    (h4 : env.step2Form sel.seeded = Except.ok f)
    (h5 : env.confirmForm = Except.ok true) :
    ∃ events, main env = persist env events (buildDevContainer v1.name sel.finalImage f) := by
  unfold main
  simp only [h1, h2, h3, h4, h5]
  exact ⟨_, rfl⟩

/-- A document exists only in a run where no form failed and the user
confirmed; it is the one built from the values of the forms. -/
theorem main_document_inv (env : Env) (d : DevContainerFile)
    (h : (main env).document = some d) :
    ∃ cwd v1 sel f, env.getwd = Except.ok cwd
      ∧ env.step1Form (filepathBase cwd) = Except.ok v1
      ∧ selectImage v1.selectedImg v1.customImage = some sel
      ∧ env.step2Form sel.seeded = Except.ok f
      ∧ env.confirmForm = Except.ok true
      ∧ d = buildDevContainer v1.name sel.finalImage f := by
  unfold main at h
  dsimp only at h
  split at h
  · simp at h
  · rename_i cwd h1
    split at h
    · simp at h
    · rename_i v1 h2
      split at h
      · simp at h
      · rename_i sel h3
        split at h
        · simp at h
        · rename_i f h4
          split at h
          · simp at h
          · rename_i confirm h5
            cases confirm with
            | false => simp at h
            | true =>
              simp only [Bool.not_true, Bool.false_eq_true, if_false, persist_document,
                Option.some.injEq] at h
              exact ⟨cwd, v1, sel, f, h1, h2, h3, h4, h5, h.symm⟩

/-! ## Lemmas on `strconv.Itoa` and `strconv.Atoi` -/

theorem digitChars_props :
    ∀ c ∈ digitChars, ('0' ≤ c ∧ c ≤ '9') ∧ isSpace c = false ∧ c ≠ ',' ∧ c ≠ '-' ∧ c ≠ '+' := by
  decide

theorem ofNat_mem_digitChars (n : Nat) : Char.ofNat (48 + n % 10) ∈ digitChars := by
  have h : n % 10 < 10 := Nat.mod_lt _ (by decide)
  generalize n % 10 = d at h
  interval_cases d <;> decide

theorem ofNat_digit_toNat (n : Nat) : (Char.ofNat (48 + n % 10)).toNat - 48 = n % 10 := by
  have h : n % 10 < 10 := Nat.mod_lt _ (by decide)
  generalize n % 10 = d at h
  interval_cases d <;> decide

/-- The digits `formatBits` writes: a non-empty run of decimal digits, in front
of `acc`, whose value is `n`. -/
theorem formatBits_spec (fuel n : Nat) (acc : GoString) (h : n < fuel) :
    ∃ ds, formatBits fuel n acc = ds ++ acc ∧ ds ≠ [] ∧ (∀ c ∈ ds, c ∈ digitChars)
      ∧ digitsVal ds = n := by
  induction fuel generalizing n acc with
  | zero => omega
  | succ fuel ih =>
    unfold formatBits
    dsimp only
    by_cases h0 : n / 10 = 0
    · refine ⟨[Char.ofNat (48 + n % 10)], by simp [h0], by simp, ?_, ?_⟩
      · intro c hc
        rw [List.mem_singleton] at hc
        rw [hc]
        exact ofNat_mem_digitChars n
      · simp only [digitsVal, List.foldl_cons, List.foldl_nil, ofNat_digit_toNat]
        omega
    · have hlt : n / 10 < fuel := by omega
      obtain ⟨ds, hds, _, hall, hval⟩ := ih (n / 10) (Char.ofNat (48 + n % 10) :: acc) hlt
      refine ⟨ds ++ [Char.ofNat (48 + n % 10)], by simp [h0, hds], by simp, ?_, ?_⟩
      · intro c hc
        rcases List.mem_append.1 hc with hc | hc
        · exact hall c hc
        · rw [List.mem_singleton] at hc
          rw [hc]
          exact ofNat_mem_digitChars n
      · unfold digitsVal at hval ⊢
        rw [List.foldl_append, hval]
        simp only [List.foldl_cons, List.foldl_nil, ofNat_digit_toNat]
        omega

theorem le_foldl_digits (ds : GoString) (n : Nat) :
    n ≤ ds.foldl (fun a c => a * 10 + (c.toNat - 48)) n := by
  induction ds generalizing n with
  | nil => simp
  | cons c cs ih =>
    simp only [List.foldl_cons]
    exact le_trans (by omega) (ih _)

/-- On a run of digits whose value fits `uint64`, the digit loop of `ParseUint`
returns that value without error. -/
theorem parseUintLoop_digits (ds : GoString) (n : Nat) (hd : ∀ c ∈ ds, c ∈ digitChars)
    (hv : ds.foldl (fun a c => a * 10 + (c.toNat - 48)) n ≤ maxUint64) :
    parseUintLoop ds n = (ds.foldl (fun a c => a * 10 + (c.toNat - 48)) n, none) := by
  induction ds generalizing n with
  | nil => simp [parseUintLoop]
  | cons c cs ih =>
    have hc := (digitChars_props c (hd c (by simp))).1
    have hcs : ∀ x ∈ cs, x ∈ digitChars := fun x hx => hd x (by simp [hx])
    simp only [List.foldl_cons] at hv ⊢
    have hle := le_foldl_digits cs (n * 10 + (c.toNat - 48))
    have h1 : n * 10 + (c.toNat - 48) ≤ maxUint64 := le_trans hle hv
    have h2 : ¬ (n ≥ maxUint64 / 10 + 1) := by
      unfold maxUint64 at h1 ⊢
      omega
    have h3 : ¬ (n * 10 + (c.toNat - 48) > maxUint64) := by omega
    unfold parseUintLoop
    simp only [hc, and_self, if_true, h2, if_false, h3]
    exact ih _ hcs hv

/-- `Atoi` undoes `Itoa` on the 64-bit `int` range. -/
theorem Atoi_Itoa (x : Int) (hlo : -(2 : Int) ^ 63 ≤ x) (hhi : x < (2 : Int) ^ 63) :
    Atoi (Itoa x) = (x, none) := by
  obtain ⟨ds, hds, hne, hall, hval⟩ := formatBits_spec (x.natAbs + 1) x.natAbs [] (by omega)
  rw [List.append_nil] at hds
  have hfit : ds.foldl (fun a c => a * 10 + (c.toNat - 48)) 0 ≤ maxUint64 := by
    have : digitsVal ds = x.natAbs := hval
    unfold digitsVal at this
    rw [this]
    unfold maxUint64
    omega
  have hloop := parseUintLoop_digits ds 0 hall hfit
  have hval2 : ds.foldl (fun a c => a * 10 + (c.toNat - 48)) 0 = x.natAbs := hval
  rw [hval2] at hloop
  have hPU : ParseUint ds = (x.natAbs, none) := by
    unfold ParseUint
    simp [hne, hloop]
  unfold Atoi Itoa
  by_cases hneg : x < 0
  · simp only [hneg, if_true, hds]
    unfold ParseInt
    simp only [or_true, if_true, hPU, decide_True]
    have hc : ¬ (x.natAbs > 2 ^ 63) := by omega
    simp only [Bool.not_true, Bool.false_and, Bool.true_and, decide_eq_true_eq, hc, if_false,
      Bool.false_eq_true, if_true, Prod.mk.injEq, and_true]
    omega
  · simp only [hneg, if_false, hds]
    cases ds with
    | nil => exact absurd rfl hne
    | cons c cs =>
      have hp := digitChars_props c (hall c (by simp))
      unfold ParseInt
      simp only [hp.2.2.2.1, hp.2.2.2.2, or_self, if_false, hPU, decide_False]
      have hc : ¬ (x.natAbs ≥ 2 ^ 63) := by omega
      simp only [Bool.not_false, Bool.true_and, decide_eq_true_eq, hc, if_false, Bool.false_and,
        Bool.false_eq_true, Prod.mk.injEq, and_true]
      omega

/-- The rendering of an integer is not empty and has no white space or comma. -/
theorem Itoa_chars (x : Int) :
    Itoa x ≠ [] ∧ (∀ c ∈ Itoa x, isSpace c = false) ∧ ',' ∉ Itoa x := by
  obtain ⟨ds, hds, hne, hall, _⟩ := formatBits_spec (x.natAbs + 1) x.natAbs [] (by omega)
  rw [List.append_nil] at hds
  have hsp : ∀ c ∈ ds, isSpace c = false := fun c hc => (digitChars_props c (hall c hc)).2.1
  have hco : ',' ∉ ds := fun hc => (digitChars_props ',' (hall ',' hc)).2.2.1 rfl
  unfold Itoa
  by_cases hneg : x < 0
  · simp only [hneg, if_true, hds]
    refine ⟨by simp, ?_, ?_⟩
    · intro c hc
      rcases List.mem_cons.1 hc with hc | hc
      · rw [hc]; decide
      · exact hsp c hc
    · intro hc
      rcases List.mem_cons.1 hc with hc | hc
      · exact absurd hc (by decide)
      · exact hco hc
  · simp only [hneg, if_false, hds]
    exact ⟨hne, hsp, hco⟩

theorem dropWhile_eq_self_of_all_false (p : Char → Bool) (s : GoString)
    (h : ∀ c ∈ s, p c = false) : s.dropWhile p = s := by
  cases s with
  | nil => rfl
  | cons c cs => simp [List.dropWhile, h c (by simp)]

/-- Trimming removes a white-space pad in front of a text without white space. -/
theorem TrimSpace_pad (pad s : GoString) (hpad : ∀ c ∈ pad, isSpace c = true)
    (hs : ∀ c ∈ s, isSpace c = false) : TrimSpace (pad ++ s) = s := by
  unfold TrimSpace
  have h1 : (pad ++ s).dropWhile isSpace = s := by
    induction pad with
    | nil => simpa using dropWhile_eq_self_of_all_false isSpace s hs
    | cons c cs ih =>
      have hc : isSpace c = true := hpad c (by simp)
      have hcs : ∀ x ∈ cs, isSpace x = true := fun x hx => hpad x (by simp [hx])
      simp [List.dropWhile, hc, ih hcs]
  rw [h1, dropWhile_eq_self_of_all_false isSpace s.reverse (fun c hc => hs c (by simpa using hc))]
  simp

/-- The port loop on a joined list of renderings gives the integers back. -/
theorem foldl_portStep_Join (xs : List Int) (x : Int) (pre pad : GoString) (acc : List Int)
    (hx : ∀ y ∈ x :: xs, -(2 : Int) ^ 63 ≤ y ∧ y < (2 : Int) ^ 63)
    (hpre : ∀ c ∈ pre, isSpace c = true) (hpad : ∀ c ∈ pad, isSpace c = true) :
    (SplitSeq ',' (pre ++ Join ((x :: xs).map Itoa) (',' :: pad))).foldl portStep acc
      = acc ++ x :: xs := by
  have hnocomma : ∀ p : GoString, (∀ c ∈ p, isSpace c = true) → ∀ y : Int, ',' ∉ p ++ Itoa y := by
    intro p hp y hc
    rcases List.mem_append.1 hc with hc | hc
    · exact absurd (hp ',' hc) (by decide)
    · exact (Itoa_chars y).2.2 hc
  have hstep : ∀ p : GoString, (∀ c ∈ p, isSpace c = true) → ∀ y : Int,
      -(2 : Int) ^ 63 ≤ y ∧ y < (2 : Int) ^ 63 → ∀ a : List Int,
      portStep a (p ++ Itoa y) = a ++ [y] := by
    intro p hp y hy a
    rw [portStep_eq, TrimSpace_pad p (Itoa y) hp (Itoa_chars y).2.1]
    have : acceptedPort (Itoa y) = some y :=
      (acceptedPort_eq_some _ _).2 (Atoi_Itoa y hy.1 hy.2)
    rw [this]
    rfl
  induction xs generalizing x pre acc with
  | nil =>
    simp only [List.map_cons, List.map_nil, Join]
    rw [SplitSeq_of_not_mem _ _ (hnocomma pre hpre x)]
    simp only [List.foldl_cons, List.foldl_nil]
    exact hstep pre hpre x (hx x (by simp)) acc
  | cons y ys ih =>
    have hjoin : pre ++ Join ((x :: y :: ys).map Itoa) (',' :: pad)
        = (pre ++ Itoa x) ++ ',' :: (pad ++ Join ((y :: ys).map Itoa) (',' :: pad)) := by
      simp [Join]
    rw [hjoin, SplitSeq_append_sep _ _ _ (hnocomma pre hpre x)]
    simp only [List.foldl_cons]
    rw [hstep pre hpre x (hx x (by simp)) acc]
    rw [ih y pad (acc ++ [x]) (fun z hz => hx z (by simp [List.mem_cons] at hz ⊢; tauto)) hpad]
    simp

theorem filterMap_ne_nil_iff {α β : Type} (g : α → Option β) (l : List α) :
    l.filterMap g ≠ [] ↔ ∃ a ∈ l, (g a).isSome = true := by
  induction l with
  | nil => simp
  | cons a as ih =>
    cases h : g a with
    | none => simp [List.filterMap_cons, h, ih]
    | some b => simp [List.filterMap_cons, h]

theorem MarshalIndent_head (d : DevContainerFile) :
    ∃ rest, MarshalIndent d
      = ("name".toList, FieldValue.text d.Name) :: ("image".toList, FieldValue.text d.Image)
        :: rest := by
  unfold MarshalIndent
  simp only [List.cons_append, List.nil_append, List.append_assoc]
  exact ⟨_, rfl⟩

/-- A settings text that `json.Unmarshal` rejects is as good as no text. -/
theorem buildDevContainer_settings_error (name finalImage : GoString) (f : RawFields)
    (e : DecodeError) (h : unmarshalSettings f.settings = Except.error e) :
    buildDevContainer name finalImage f
      = buildDevContainer name finalImage { f with settings := [] } := by
  unfold buildDevContainer
  simp [h]

/-- A features text that `json.Unmarshal` rejects is as good as no text. -/
theorem buildDevContainer_features_error (name finalImage : GoString) (f : RawFields)
    (e : DecodeError) (h : unmarshalFeatures f.features = Except.error e) :
    buildDevContainer name finalImage f
      = buildDevContainer name finalImage { f with features := [] } := by
  unfold buildDevContainer
  simp [h]

theorem buildDevContainer_Settings_nil (name finalImage : GoString) (f : RawFields) :
    (buildDevContainer name finalImage { f with settings := [] }).Settings = none := by
  unfold buildDevContainer
  dsimp only
  repeat' split
  all_goals first | rfl | (exfalso; simp_all)

theorem buildDevContainer_Features_nil (name finalImage : GoString) (f : RawFields) :
    (buildDevContainer name finalImage { f with features := [] }).Features = none := by
  unfold buildDevContainer
  dsimp only
  repeat' split
  all_goals first | rfl | (exfalso; simp_all)

/-- With a working file system and a document within the nesting limit of
the serialiser, the persistence step writes the serialised document and
completes. -/
theorem persist_completed (env : Env) (events : List Event) (d : DevContainerFile)
    (hm : env.mkdirAll = none) (hj : marshalIndentError d = none) (hw : env.writeFile = none) :
    persist env events d
      = ⟨events ++ [Event.mkdirAll ".devcontainer".toList 0o755]
          ++ [Event.marshalIndent d]
          ++ [Event.writeFile ".devcontainer/devcontainer.json".toList (MarshalIndent d) 0o644]
          ++ [Event.print (Message.success ".devcontainer/devcontainer.json".toList)],
        some d, Outcome.completed⟩ := by
  unfold persist
  simp only [hm, hj, hw]

/-- The persistence step stops at the serialisation, with an error report and
no write, when `json.MarshalIndent` returns an error. -/
theorem persist_marshalFailed (env : Env) (events : List Event) (d : DevContainerFile)
    (err : GoString) (hm : env.mkdirAll = none) (hj : marshalIndentError d = some err) :
    persist env events d
      = ⟨events ++ [Event.mkdirAll ".devcontainer".toList 0o755]
          ++ [Event.marshalIndent d]
          ++ [Event.printError ("Error marshaling JSON: ".toList ++ err)],
        some d, Outcome.marshalFailed⟩ := by
  unfold persist
  simp only [hm, hj]

theorem nestsDeeperThan_nestedArrays (n : Nat) :
    nestsDeeperThan n (nestedArrays n) = true := by
  induction n with
  | zero => rfl
  | succ n ih => simp [nestedArrays, nestsDeeperThan, ih]

/-- A settings map whose value nests as deep as the decoder allows makes a
document one level too deep for the serialiser. -/
theorem marshalIndentError_deep (name finalImage : GoString) (n : Nat)
    (hn : maxNestingDepth - 1 = n + 1) :
    marshalIndentError
      { Name := name, Image := finalImage, ForwardPorts := [], PostCreateCommand := [],
        Settings := some [("a".toList, nestedArrays n)], Features := none }
      = some "exceeded max depth".toList := by
  unfold marshalIndentError
  rw [hn]
  simp [MarshalIndent, FieldValue.nestsDeeperThan, nestsDeeperThan,
    nestsDeeperThan_nestedArrays]

/-- The serialisation error is reachable: with such a settings map the run
stops at the serialisation without writing. -/
theorem persist_deep_settings (env : Env) (events : List Event) (name finalImage : GoString)
    (hm : env.mkdirAll = none) :
    (persist env events
      { Name := name, Image := finalImage, ForwardPorts := [], PostCreateCommand := [],
        Settings := some [("a".toList, nestedArrays 9998)], Features := none }).outcome
      = Outcome.marshalFailed := by
  rw [persist_marshalFailed env events _ _ hm (marshalIndentError_deep name finalImage 9998 rfl)]

theorem isPersistence_print (m : Message) : (Event.print m).isPersistence = false := rfl

theorem isPersistence_printError (t : GoString) : (Event.printError t).isPersistence = false := rfl

theorem isError_print (m : Message) : (Event.print m).isError = false := rfl

/-! ## The claims -/

/-- C1: the forwarded-ports sequence `main` builds from a raw ports text is the
reference list of the specification (split on commas, trim, drop empty parts,
keep the parts `strconv.Atoi` accepts, in order); the empty text gives the
empty sequence, `"3000, 8080,  9090"` gives `[3000, 8080, 9090]` and
`"3000,abc,8080"` gives `[3000, 8080]`. -/
theorem forwardPorts_eq_portsSpec (name finalImage : GoString) (f : RawFields) :
    (buildDevContainer name finalImage f).ForwardPorts = portsSpec f.ports
    ∧ (buildDevContainer name finalImage { f with ports := [] }).ForwardPorts = []
    ∧ (buildDevContainer name finalImage { f with ports := "3000, 8080,  9090".toList }).ForwardPorts
        = [3000, 8080, 9090]
    ∧ (buildDevContainer name finalImage { f with ports := "3000,abc,8080".toList }).ForwardPorts
        = [3000, 8080] := by
  refine ⟨?_, ?_, ?_, ?_⟩
  · rw [buildDevContainer_ForwardPorts, parsePorts_eq_portsSpec]
  · rw [buildDevContainer_ForwardPorts]
    rfl
  · rw [buildDevContainer_ForwardPorts]
    show parsePorts "3000, 8080,  9090".toList [] = [3000, 8080, 9090]
    decide
  · rw [buildDevContainer_ForwardPorts]
    show parsePorts "3000,abc,8080".toList [] = [3000, 8080]
    decide

/-- C4: the serialised document has the key `forwardPorts` exactly when some
comma-separated part of the raw ports text, once trimmed, is accepted by
`strconv.Atoi`; the empty text gives a document without the key. -/
theorem forwardPorts_key_iff (name finalImage : GoString) (f : RawFields) :
    (hasKey (buildDevContainer name finalImage f) "forwardPorts" = true
      ↔ ∃ part ∈ SplitSeq ',' f.ports, (Atoi (TrimSpace part)).2 = none)
    ∧ hasKey (buildDevContainer name finalImage { f with ports := [] }) "forwardPorts" = false := by
  constructor
  · rw [hasKey_forwardPorts, buildDevContainer_ForwardPorts, parsePorts_eq_portsSpec]
    unfold portsSpec
    rw [filterMap_ne_nil_iff]
    constructor
    · rintro ⟨p, hp, hsome⟩
      rw [List.mem_filter, List.mem_map] at hp
      obtain ⟨⟨part, hpart, rfl⟩, _⟩ := hp
      exact ⟨part, hpart, (acceptedPort_isSome _).1 hsome⟩
    · rintro ⟨part, hpart, hok⟩
      refine ⟨TrimSpace part, ?_, (acceptedPort_isSome _).2 hok⟩
      rw [List.mem_filter, List.mem_map]
      refine ⟨⟨part, hpart, rfl⟩, ?_⟩
      have hne : TrimSpace part ≠ [] := by
        intro h
        rw [h, Atoi_nil] at hok
        exact absurd hok (by simp)
      simpa using hne
  · rw [← Bool.not_eq_true, hasKey_forwardPorts, buildDevContainer_ForwardPorts]
    simp [parsePorts]

/-- C5 (as stated, refuted): the command text `" "` trims to the empty text,
yet the document built from it has the key `postCreateCommand`, with the
blank as its value. -/
theorem postCreateCommand_blank_attached :
    TrimSpace " ".toList = []
    ∧ hasKey (buildDevContainer "myapp".toList "golang:alpine".toList
        ⟨[], " ".toList, [], []⟩) "postCreateCommand" = true
    ∧ (buildDevContainer "myapp".toList "golang:alpine".toList
        ⟨[], " ".toList, [], []⟩).PostCreateCommand = " ".toList := by
  decide

/-- C5 (amended): the document has the key `postCreateCommand` exactly when
the raw command text is not empty (the text is not trimmed), and the value is
the raw text; so a text whose trimmed form is not empty gets the key. -/
theorem postCreateCommand_key_iff (name finalImage : GoString) (f : RawFields) :
    (hasKey (buildDevContainer name finalImage f) "postCreateCommand" = true
      ↔ f.postCommand ≠ [])
    ∧ (buildDevContainer name finalImage f).PostCreateCommand = f.postCommand
    ∧ (TrimSpace f.postCommand ≠ [] →
        hasKey (buildDevContainer name finalImage f) "postCreateCommand" = true) := by
  have hiff : hasKey (buildDevContainer name finalImage f) "postCreateCommand" = true
      ↔ f.postCommand ≠ [] := by
    rw [hasKey_postCreateCommand, buildDevContainer_PostCreateCommand]
  refine ⟨hiff, buildDevContainer_PostCreateCommand _ _ _, ?_⟩
  intro h
  apply hiff.2
  intro h0
  apply h
  rw [h0]
  rfl

/-- Witness of C5 (amended): the command `"go mod download"` is attached. -/
theorem postCreateCommand_key_iff_witness :
    hasKey (buildDevContainer "myapp".toList "golang:alpine".toList
      ⟨[], "go mod download".toList, [], []⟩) "postCreateCommand" = true :=
  (postCreateCommand_key_iff "myapp".toList "golang:alpine".toList
    ⟨[], "go mod download".toList, [], []⟩).2.2 (by decide)

/-- C10: for every list of integers of the 64-bit `int` range, the port parser
gives the list back from its renderings joined by a comma, with or without
white space after the commas; no port-range check drops a value. -/
theorem forwardPorts_of_joined_Itoa (xs : List Int) (pad name finalImage : GoString)
    (f : RawFields) (hx : ∀ x ∈ xs, -(2 : Int) ^ 63 ≤ x ∧ x < (2 : Int) ^ 63)
    (hpad : ∀ c ∈ pad, isSpace c = true)
    (hf : f.ports = Join (xs.map Itoa) (',' :: pad)) :
    (buildDevContainer name finalImage f).ForwardPorts = xs := by
  rw [buildDevContainer_ForwardPorts, hf]
  cases xs with
  | nil => simp [Join, parsePorts]
  | cons x xs =>
    have hne : Join ((x :: xs).map Itoa) (',' :: pad) ≠ [] := by
      have h0 := (Itoa_chars x).1
      cases xs with
      | nil => simpa [Join] using h0
      | cons y ys => simp [Join, h0]
    unfold parsePorts
    simp only [ne_eq, hne, not_false_eq_true, if_true]
    have h := foldl_portStep_Join xs x [] pad [] hx (by simp) hpad
    simpa using h

/-- Witness of C10: a negative number, zero and a value above 65535, written
with a space after each comma. -/
theorem forwardPorts_of_joined_Itoa_witness :
    Join ([-1, 0, 65536].map Itoa) [',', ' '] = "-1, 0, 65536".toList
    ∧ (buildDevContainer "myapp".toList "golang:alpine".toList
        ⟨"-1, 0, 65536".toList, [], [], []⟩).ForwardPorts = [-1, 0, 65536] :=
  ⟨by decide,
   forwardPorts_of_joined_Itoa [-1, 0, 65536] [' '] "myapp".toList "golang:alpine".toList
     ⟨"-1, 0, 65536".toList, [], [], []⟩ (by decide) (by decide) (by decide)⟩

/-- C2: for every catalog position other than the last one (the custom
sentinel), the selection step gives the template's image as final image and
seeds the four raw fields with the template's `DefaultPort`, `PostCommand`,
`Settings` and `Features`; every document of a session with that selection
has the template's image. -/
theorem preset_selection_seeds_defaults (i : Nat) (tpl : DevContainerImage)
    (customImage : GoString) (hi : predefinedImages.get? i = some tpl)
    (hns : i + 1 ≠ predefinedImages.length) :
    selectImage (Itoa (i : Int)) customImage
      = some ⟨tpl, tpl.Image, ⟨tpl.DefaultPort, tpl.PostCommand, tpl.Settings, tpl.Features⟩⟩
    ∧ ∀ (env : Env) (cwd : GoString) (v1 : Step1Values) (d : DevContainerFile),
        env.getwd = Except.ok cwd → env.step1Form (filepathBase cwd) = Except.ok v1 →
        v1.selectedImg = Itoa (i : Int) → (main env).document = some d →
        d.Image = tpl.Image
        ∧ ∃ rest, MarshalIndent d = ("name".toList, FieldValue.text v1.name)
            :: ("image".toList, FieldValue.text tpl.Image) :: rest := by
  have hsel : ∀ c : GoString, selectImage (Itoa (i : Int)) c
      = some ⟨tpl, tpl.Image, ⟨tpl.DefaultPort, tpl.PostCommand, tpl.Settings, tpl.Features⟩⟩ := by
    intro c
    have hlt : i < predefinedImages.length := by
      rcases Nat.lt_or_ge i predefinedImages.length with h | h
      · exact h
      · rw [List.get?_eq_none.2 h] at hi
        exact absurd hi (by simp)
    have h8 : predefinedImages.length = 8 := rfl
    rw [h8] at hlt hns
    interval_cases i
    all_goals first
      | exact absurd rfl hns
      | (cases hi; rfl)
  refine ⟨hsel customImage, ?_⟩
  intro env cwd v1 d h1 h2 h3 hd
  obtain ⟨cwd2, v2, sel, f, g1, g2, g3, _, _, rfl⟩ := main_document_inv env d hd
  rw [h1] at g1
  cases g1
  rw [h2] at g2
  cases g2
  rw [h3, hsel] at g3
  cases g3
  refine ⟨buildDevContainer_Image _ _ _, ?_⟩
  obtain ⟨rest, hrest⟩ := MarshalIndent_head (buildDevContainer v1.name tpl.Image f)
  rw [buildDevContainer_Name, buildDevContainer_Image] at hrest
  exact ⟨rest, hrest⟩

/-- Witness of C2: the first catalog entry, in the sample session. -/
theorem preset_selection_seeds_defaults_witness :
    selectImage (Itoa 0) "ignored".toList
      = some ⟨⟨"Bun (Latest)".toList, "oven/bun:latest".toList, "3000".toList,
          "\x7b\"terminal.integrated.shell.linux\": \"/bin/bash\"\x7d".toList,
          "bun install".toList,
          "\x7b\"ghcr.io/devcontainers/features/git:1\": \x7b\x7d, \"ghcr.io/devcontainers/features/common-utils:2\": \x7b\x7d\x7d".toList⟩,
        "oven/bun:latest".toList,
        ⟨"3000".toList, "bun install".toList,
          "\x7b\"terminal.integrated.shell.linux\": \"/bin/bash\"\x7d".toList,
          "\x7b\"ghcr.io/devcontainers/features/git:1\": \x7b\x7d, \"ghcr.io/devcontainers/features/common-utils:2\": \x7b\x7d\x7d".toList⟩⟩
    ∧ (main (sampleEnv ⟨"myapp".toList, "0".toList, "ignored".toList⟩ (fun s => s)
        true)).document.map DevContainerFile.Image = some "oven/bun:latest".toList
    ∧ (buildDevContainer "myapp".toList "oven/bun:latest".toList
        ⟨"3000".toList, "bun install".toList,
          "\x7b\"terminal.integrated.shell.linux\": \"/bin/bash\"\x7d".toList,
          "\x7b\"ghcr.io/devcontainers/features/git:1\": \x7b\x7d, \"ghcr.io/devcontainers/features/common-utils:2\": \x7b\x7d\x7d".toList⟩).Image
      = "oven/bun:latest".toList :=
  have h := preset_selection_seeds_defaults 0 _ "ignored".toList rfl (by decide)
  ⟨h.1, rfl,
    (h.2 (sampleEnv ⟨"myapp".toList, "0".toList, "ignored".toList⟩ (fun s => s) true)
      "/home/dev/myapp".toList ⟨"myapp".toList, "0".toList, "ignored".toList⟩ _
      rfl rfl rfl rfl).1⟩

/-- C3: when the last catalog entry (the custom sentinel, recognised by its
name `Custom Image`) is selected with custom image `c`, the four optional
fields are left as seeded and the user confirms, the document has image `c`
and its serialisation has the keys `name` and `image` only. -/
theorem custom_selection_image_only (env : Env) (cwd name c : GoString)
    (h1 : env.getwd = Except.ok cwd)
    (h2 : env.step1Form (filepathBase cwd)
      = Except.ok ⟨name, Itoa ((predefinedImages.length : Int) - 1), c⟩)
    (h3 : ∀ s, env.step2Form s = Except.ok s)
    (h4 : env.confirmForm = Except.ok true) :
    (predefinedImages.getLast?.map DevContainerImage.Name = some "Custom Image".toList)
    ∧ ∃ d, (main env).document = some d ∧ d.Image = c
        ∧ hasKey d "forwardPorts" = false ∧ hasKey d "postCreateCommand" = false
        ∧ hasKey d "settings" = false ∧ hasKey d "features" = false
        ∧ MarshalIndent d
          = [("name".toList, FieldValue.text name), ("image".toList, FieldValue.text c)] := by
  refine ⟨rfl, ?_⟩
  have hsel : selectImage (Itoa ((predefinedImages.length : Int) - 1)) c
      = some ⟨⟨"Custom Image".toList, [], [], [], [], []⟩, c, ⟨[], [], [], []⟩⟩ := rfl
  obtain ⟨events, hmain⟩ := main_confirmed env cwd _ _ _ h1 h2 hsel (h3 _) h4
  have hbuild : buildDevContainer name c ⟨[], [], [], []⟩
      = { Name := name, Image := c, ForwardPorts := [], PostCreateCommand := [],
          Settings := none, Features := none } := rfl
  refine ⟨buildDevContainer name c ⟨[], [], [], []⟩, ?_, ?_⟩
  · rw [hmain, persist_document]
  · rw [hbuild]
    refine ⟨rfl, ?_, ?_, ?_, ?_, rfl⟩
    · rw [← Bool.not_eq_true, hasKey_forwardPorts]; simp
    · rw [← Bool.not_eq_true, hasKey_postCreateCommand]; simp
    · rw [hasKey_settings]; rfl
    · rw [hasKey_features]; rfl

/-- Witness of C3: the custom image `foo/bar:latest`. -/
theorem custom_selection_image_only_witness :
    ∃ d, (main (sampleEnv ⟨"myapp".toList, "7".toList, "foo/bar:latest".toList⟩
        (fun s => s) true)).document = some d
      ∧ d.Image = "foo/bar:latest".toList
      ∧ hasKey d "forwardPorts" = false ∧ hasKey d "postCreateCommand" = false
      ∧ hasKey d "settings" = false ∧ hasKey d "features" = false
      ∧ MarshalIndent d = [("name".toList, FieldValue.text "myapp".toList),
          ("image".toList, FieldValue.text "foo/bar:latest".toList)] :=
  (custom_selection_image_only
    (sampleEnv ⟨"myapp".toList, "7".toList, "foo/bar:latest".toList⟩ (fun s => s) true)
    "/home/dev/myapp".toList "myapp".toList "foo/bar:latest".toList rfl rfl (fun _ => rfl) rfl).2

/-- C6: in a session that reaches the build step, a settings text that
`json.Unmarshal` rejects does not stop the run: the document is built, it is
the one built from the empty settings text (so every other field is as with
no settings text), it has no key `settings`, and the run goes on to the
persistence step with it; likewise a rejected features text only drops
`features`. When the directory creation, the serialisation and the write
report no error, the run completes with the file written. -/
theorem malformed_settings_features_dropped (env : Env) (cwd : GoString) (v1 : Step1Values)
    (sel : Selection) (f : RawFields)
    (h1 : env.getwd = Except.ok cwd)
    (h2 : env.step1Form (filepathBase cwd) = Except.ok v1)
    (h3 : selectImage v1.selectedImg v1.customImage = some sel)
    (h4 : env.step2Form sel.seeded = Except.ok f)
    (h5 : env.confirmForm = Except.ok true) :
    (∀ e, unmarshalSettings f.settings = Except.error e →
      (main env).document
        = some (buildDevContainer v1.name sel.finalImage { f with settings := [] })
      ∧ hasKey (buildDevContainer v1.name sel.finalImage { f with settings := [] }) "settings"
        = false
      ∧ ∃ events, main env
          = persist env events
              (buildDevContainer v1.name sel.finalImage { f with settings := [] }))
    ∧ (∀ e, unmarshalFeatures f.features = Except.error e →
      (main env).document
        = some (buildDevContainer v1.name sel.finalImage { f with features := [] })
      ∧ hasKey (buildDevContainer v1.name sel.finalImage { f with features := [] }) "features"
        = false
      ∧ ∃ events, main env
          = persist env events
              (buildDevContainer v1.name sel.finalImage { f with features := [] }))
    ∧ (env.mkdirAll = none →
      marshalIndentError (buildDevContainer v1.name sel.finalImage f) = none →
      env.writeFile = none →
      (main env).outcome = Outcome.completed
      ∧ ∃ events, (main env).events = events
          ++ [Event.writeFile ".devcontainer/devcontainer.json".toList
                (MarshalIndent (buildDevContainer v1.name sel.finalImage f)) 0o644,
              Event.print (Message.success ".devcontainer/devcontainer.json".toList)]) := by
  obtain ⟨events, hmain⟩ := main_confirmed env cwd v1 sel f h1 h2 h3 h4 h5
  refine ⟨?_, ?_, ?_⟩
  · intro e he
    refine ⟨?_, ?_, events, ?_⟩
    · rw [hmain, persist_document, buildDevContainer_settings_error _ _ _ e he]
    · rw [hasKey_settings, buildDevContainer_Settings_nil]
      rfl
    · rw [hmain, buildDevContainer_settings_error _ _ _ e he]
  · intro e he
    refine ⟨?_, ?_, events, ?_⟩
    · rw [hmain, persist_document, buildDevContainer_features_error _ _ _ e he]
    · rw [hasKey_features, buildDevContainer_Features_nil]
      rfl
    · rw [hmain, buildDevContainer_features_error _ _ _ e he]
  · intro hm hj hw
    rw [hmain, persist_completed env events _ hm hj hw]
    refine ⟨rfl, events ++ [Event.mkdirAll ".devcontainer".toList 0o755,
      Event.marshalIndent (buildDevContainer v1.name sel.finalImage f)], ?_⟩
    simp only [List.append_assoc, List.cons_append, List.nil_append]

/-- Witness of C6: the Go preset with the settings text `{` (unbalanced brace)
and the features text `{"a": true}` (a member that is not an object). -/
theorem malformed_settings_features_dropped_witness :
    unmarshalSettings "\x7b".toList = Except.error DecodeError.SyntaxError
    ∧ unmarshalFeatures "\x7b\"a\": true\x7d".toList = Except.error DecodeError.UnmarshalTypeError
    ∧ (main (sampleEnv ⟨"myapp".toList, "3".toList, []⟩
        (fun s => { s with settings := "\x7b".toList, features := "\x7b\"a\": true\x7d".toList })
        true)).document
      = some (buildDevContainer "myapp".toList "golang:alpine".toList
          ⟨"8080".toList, "go mod download".toList, [], "\x7b\"a\": true\x7d".toList⟩)
    ∧ (main (sampleEnv ⟨"myapp".toList, "3".toList, []⟩
        (fun s => { s with settings := "\x7b".toList, features := "\x7b\"a\": true\x7d".toList })
        true)).document
      = some (buildDevContainer "myapp".toList "golang:alpine".toList
          ⟨"8080".toList, "go mod download".toList, "\x7b".toList, []⟩)
    ∧ marshalIndentError (buildDevContainer "myapp".toList "golang:alpine".toList
        ⟨"8080".toList, "go mod download".toList, "\x7b".toList,
          "\x7b\"a\": true\x7d".toList⟩) = none
    ∧ (main (sampleEnv ⟨"myapp".toList, "3".toList, []⟩
        (fun s => { s with settings := "\x7b".toList, features := "\x7b\"a\": true\x7d".toList })
        true)).outcome = Outcome.completed :=
  have h := malformed_settings_features_dropped
    (sampleEnv ⟨"myapp".toList, "3".toList, []⟩
      (fun s => { s with settings := "\x7b".toList, features := "\x7b\"a\": true\x7d".toList })
      true)
    "/home/dev/myapp".toList ⟨"myapp".toList, "3".toList, []⟩
    ⟨⟨"Go (Alpine)".toList, "golang:alpine".toList, "8080".toList,
        "\x7b\"go.goroot\": \"/usr/local/go\", \"go.gopath\": \"/go\"\x7d".toList,
        "go mod download".toList,
        "\x7b\"ghcr.io/devcontainers/features/git:1\": \x7b\x7d\x7d".toList⟩,
      "golang:alpine".toList,
      ⟨"8080".toList, "go mod download".toList,
        "\x7b\"go.goroot\": \"/usr/local/go\", \"go.gopath\": \"/go\"\x7d".toList,
        "\x7b\"ghcr.io/devcontainers/features/git:1\": \x7b\x7d\x7d".toList⟩⟩
    ⟨"8080".toList, "go mod download".toList, "\x7b".toList, "\x7b\"a\": true\x7d".toList⟩
    rfl rfl rfl rfl rfl
  ⟨rfl, rfl, (h.1 DecodeError.SyntaxError rfl).1, (h.2.1 DecodeError.UnmarshalTypeError rfl).1,
    rfl, (h.2.2 rfl rfl rfl).1⟩

/-- C7: when the confirmation form returns false, `main` builds no document
and performs no directory creation, serialisation or file write; if nothing
failed before the confirmation the run ends as cancelled without an error
report. A persistence step is reached only when the confirmation is true and
nothing failed before it. -/
theorem cancellation_never_builds_or_writes (env : Env) :
    (env.confirmForm = Except.ok false →
      (main env).document = none
      ∧ (main env).events.all (fun e => !e.isPersistence) = true
      ∧ (formsSucceeded env →
          (main env).outcome = Outcome.cancelled
          ∧ (main env).events.all (fun e => !e.isError) = true))
    ∧ ((main env).events.any Event.isPersistence = true →
        env.confirmForm = Except.ok true ∧ formsSucceeded env) := by
  constructor
  · intro hc
    refine ⟨?_, ?_, ?_⟩
    · unfold main
      dsimp only
      simp only [hc, Bool.not_false, if_true]
      repeat' split
      all_goals rfl
    · unfold main
      dsimp only
      simp only [hc, Bool.not_false, if_true]
      repeat' split
      all_goals simp [isPersistence_print, isPersistence_printError]
    · rintro ⟨cwd, v1, sel, f, g1, g2, g3, g4⟩
      have hrun : main env = ⟨[Event.print Message.banner] ++ [Event.print Message.configureHeader]
          ++ (if sel.selectedImage.Name ≠ "Custom Image".toList
              then [Event.print Message.defaultsHint] else [])
          ++ [Event.print (Message.summary v1.name sel.finalImage f)]
          ++ [Event.print Message.cancelled], none, Outcome.cancelled⟩ := by
        unfold main
        simp only [g1, g2, g3, g4, hc, Bool.not_false, if_true]
      rw [hrun]
      refine ⟨rfl, ?_⟩
      split <;> simp [isError_print]
  · intro h
    unfold main at h
    dsimp only at h
    split at h
    · simp [isPersistence_print, isPersistence_printError] at h
    · rename_i cwd g1
      split at h
      · simp [isPersistence_print, isPersistence_printError] at h
      · rename_i v1 g2
        split at h
        · simp [isPersistence_print, isPersistence_printError] at h
        · rename_i sel g3
          split at h
          · split at h <;> simp [isPersistence_print, isPersistence_printError] at h
          · rename_i f g4
            split at h
            · split at h <;> simp [isPersistence_print, isPersistence_printError] at h
            · rename_i confirm g5
              cases confirm with
              | false =>
                simp only [Bool.not_false, if_true] at h
                split at h <;> simp [isPersistence_print, isPersistence_printError] at h
              | true => exact ⟨g5, cwd, v1, sel, f, g1, g2, g3, g4⟩

/-- Witness of C7: the Go preset, declined at the confirmation. -/
theorem cancellation_never_builds_or_writes_witness :
    (main (sampleEnv ⟨"myapp".toList, "3".toList, []⟩ (fun s => s) false)).document = none
    ∧ (main (sampleEnv ⟨"myapp".toList, "3".toList, []⟩ (fun s => s) false)).events.all
        (fun e => !e.isPersistence) = true
    ∧ (main (sampleEnv ⟨"myapp".toList, "3".toList, []⟩ (fun s => s) false)).outcome
        = Outcome.cancelled
    ∧ (main (sampleEnv ⟨"myapp".toList, "3".toList, []⟩ (fun s => s) false)).events.all
        (fun e => !e.isError) = true :=
  have h := (cancellation_never_builds_or_writes
    (sampleEnv ⟨"myapp".toList, "3".toList, []⟩ (fun s => s) false)).1 rfl
  have hf : formsSucceeded (sampleEnv ⟨"myapp".toList, "3".toList, []⟩ (fun s => s) false) :=
    ⟨"/home/dev/myapp".toList, ⟨"myapp".toList, "3".toList, []⟩, _, _, rfl, rfl, rfl, rfl⟩
  ⟨h.1, h.2.1, (h.2.2 hf).1, (h.2.2 hf).2⟩

/-- C8 (as stated, refuted): the project name `" app"` is accepted by the
validation of the name field and is copied into the document with its leading
blank, although its trimmed form is `"app"`. -/
theorem accepted_name_not_trimmed :
    validateName " app".toList = true
    ∧ (main (sampleEnv ⟨" app".toList, "3".toList, []⟩ (fun s => s) true)).document.map
        DevContainerFile.Name = some " app".toList
    ∧ TrimSpace " app".toList = "app".toList :=
  ⟨by decide, rfl, by decide⟩

/-- C8 (amended): when the name field only returns names its validation
accepts, the name of every document `main` builds is the accepted text as
entered (it is not trimmed); it is not empty and its trimmed form is not
empty. -/
theorem accepted_name_copied_verbatim (env : Env) (d : DevContainerFile)
    (hval : ∀ dflt v1, env.step1Form dflt = Except.ok v1 → validateName v1.name = true)
    (hd : (main env).document = some d) :
    d.Name ≠ [] ∧ TrimSpace d.Name ≠ []
    ∧ ∃ cwd v1, env.getwd = Except.ok cwd ∧ env.step1Form (filepathBase cwd) = Except.ok v1
        ∧ d.Name = v1.name := by
  obtain ⟨cwd, v1, sel, f, g1, g2, _, _, _, rfl⟩ := main_document_inv env d hd
  have hv := hval _ _ g2
  rw [buildDevContainer_Name]
  have htrim : TrimSpace v1.name ≠ [] := by
    unfold validateName at hv
    simpa using hv
  refine ⟨?_, htrim, cwd, v1, g1, g2, rfl⟩
  intro h0
  apply htrim
  rw [h0]
  rfl

/-- Witness of C8 (amended): the name `myapp` with the Go preset. -/
theorem accepted_name_copied_verbatim_witness :
    validateName "myapp".toList = true
    ∧ ∃ d, (main (sampleEnv ⟨"myapp".toList, "3".toList, []⟩ (fun s => s) true)).document
        = some d
      ∧ ¬ (d.Name = []) ∧ ¬ (TrimSpace d.Name = []) ∧ d.Name = "myapp".toList :=
  ⟨by decide,
   buildDevContainer "myapp".toList "golang:alpine".toList
     ⟨"8080".toList, "go mod download".toList,
      "\x7b\"go.goroot\": \"/usr/local/go\", \"go.gopath\": \"/go\"\x7d".toList,
      "\x7b\"ghcr.io/devcontainers/features/git:1\": \x7b\x7d\x7d".toList⟩,
   rfl,
   (accepted_name_copied_verbatim
     (sampleEnv ⟨"myapp".toList, "3".toList, []⟩ (fun s => s) true) _
     (fun _ v1 h => by
       have h2 : v1 = ⟨"myapp".toList, "3".toList, []⟩ := by
         injection h with h
         exact h.symm
       rw [h2]
       decide)
     rfl).1,
   (accepted_name_copied_verbatim
     (sampleEnv ⟨"myapp".toList, "3".toList, []⟩ (fun s => s) true) _
     (fun _ v1 h => by
       have h2 : v1 = ⟨"myapp".toList, "3".toList, []⟩ := by
         injection h with h
         exact h.symm
       rw [h2]
       decide)
     rfl).2.1,
   rfl⟩

/-- C9: with project name `myapp`, the `Go (Alpine)` template selected, its
seeded fields left unedited and the write confirmed, the document has name
`myapp`, image `golang:alpine`, forwarded ports `[8080]`, post-create command
`go mod download`, the settings object with the keys `go.goroot` and
`go.gopath`, and the features object with the one key
`ghcr.io/devcontainers/features/git:1` mapped to an empty object; all six keys
are serialised. -/
theorem go_alpine_end_to_end (env : Env) (cwd customImage : GoString) (i : Nat)
    (hsel : (predefinedImages.get? i).map DevContainerImage.Name = some "Go (Alpine)".toList)
    (h1 : env.getwd = Except.ok cwd)
    (h2 : env.step1Form (filepathBase cwd)
      = Except.ok ⟨"myapp".toList, Itoa (i : Int), customImage⟩)
    (h3 : ∀ s, env.step2Form s = Except.ok s)
    (h4 : env.confirmForm = Except.ok true) :
    (main env).document = some
      { Name := "myapp".toList,
        Image := "golang:alpine".toList,
        ForwardPorts := [8080],
        PostCreateCommand := "go mod download".toList,
        Settings := some [("go.goroot".toList, JSONAny.string "/usr/local/go".toList),
                          ("go.gopath".toList, JSONAny.string "/go".toList)],
        Features := some [("ghcr.io/devcontainers/features/git:1".toList, some [])] }
    ∧ (main env).document.map outputKeys = some ["name".toList, "image".toList,
        "forwardPorts".toList, "postCreateCommand".toList, "settings".toList,
        "features".toList] := by
  have hi : i = 3 := by
    have hlt : i < predefinedImages.length := by
      rcases Nat.lt_or_ge i predefinedImages.length with h | h
      · exact h
      · rw [List.get?_eq_none.2 h] at hsel
        exact absurd hsel (by simp)
    have h8 : predefinedImages.length = 8 := rfl
    rw [h8] at hlt
    interval_cases i
    all_goals first
      | rfl
      | exact absurd hsel (by decide)
  subst hi
  have hs : selectImage (Itoa ((3 : Nat) : Int)) customImage
      = some ⟨⟨"Go (Alpine)".toList, "golang:alpine".toList, "8080".toList,
          "\x7b\"go.goroot\": \"/usr/local/go\", \"go.gopath\": \"/go\"\x7d".toList,
          "go mod download".toList,
          "\x7b\"ghcr.io/devcontainers/features/git:1\": \x7b\x7d\x7d".toList⟩,
        "golang:alpine".toList,
        ⟨"8080".toList, "go mod download".toList,
          "\x7b\"go.goroot\": \"/usr/local/go\", \"go.gopath\": \"/go\"\x7d".toList,
          "\x7b\"ghcr.io/devcontainers/features/git:1\": \x7b\x7d\x7d".toList⟩⟩ := rfl
  obtain ⟨events, hmain⟩ := main_confirmed env cwd _ _ _ h1 h2 hs (h3 _) h4
  rw [hmain, persist_document]
  exact ⟨rfl, rfl⟩

/-- Witness of C9: the sample session of the Go preset. -/
theorem go_alpine_end_to_end_witness :
    (main (sampleEnv ⟨"myapp".toList, "3".toList, []⟩ (fun s => s) true)).document = some
      { Name := "myapp".toList,
        Image := "golang:alpine".toList,
        ForwardPorts := [8080],
        PostCreateCommand := "go mod download".toList,
        Settings := some [("go.goroot".toList, JSONAny.string "/usr/local/go".toList),
                          ("go.gopath".toList, JSONAny.string "/go".toList)],
        Features := some [("ghcr.io/devcontainers/features/git:1".toList, some [])] }
    ∧ (main (sampleEnv ⟨"myapp".toList, "3".toList, []⟩ (fun s => s) true)).document.map outputKeys
      = some ["name".toList, "image".toList, "forwardPorts".toList,
          "postCreateCommand".toList, "settings".toList, "features".toList] :=
  go_alpine_end_to_end (sampleEnv ⟨"myapp".toList, "3".toList, []⟩ (fun s => s) true)
    "/home/dev/myapp".toList [] 3 rfl rfl rfl (fun _ => rfl) rfl

end DCGenerator
